import Mathlib

/-!
Shallow embedding of the garmin-coach-mcp repository: the read-only SQL
query gateway (`query` in `server.py`) and the sync engine (`sync.py`:
the `_upsert` store primitive, the per-date category loops, the
per-activity detail loops, and the `sync_all` orchestrator), together
with proofs of the specified behavioural properties.

Modelling conventions: Python dicts become association lists, exceptions
become `Except`, machine reals (speeds, paces) become rationals, and the
database session becomes an explicit store value threaded through the
functions.  Remote-client calls are abstracted as function parameters
returning `Except` results, so that one embedding covers every possible
remote behaviour.
-/

namespace GarminCoach

/- ═══════════════ Query gateway (server.py, `query`) ═══════════════ -/

/-- Word characters as matched by Python's regex word boundary `\b`
(ASCII view, which is all the denylist needs). -/
def isWordChar (c : Char) : Bool := c.isAlphanum || c == '_'

/-- Python `str.strip()`: drop leading and trailing whitespace. -/
def pyStrip (s : List Char) : List Char :=
  ((s.dropWhile Char.isWhitespace).reverse.dropWhile Char.isWhitespace).reverse

/-- Python `str.upper()` composed with `str.strip()` — the
`sql.strip().upper()` normalization of server.py line 73 (ASCII view). -/
def pyNormalize (sql : String) : List Char :=
  (pyStrip sql.data).map Char.toUpper

/-- Python `str.startswith(w)`: does `w` occur at the head of `s`? -/
def startsWithChars : List Char → List Char → Bool
  | _, [] => true
  | [], _ :: _ => false
  | d :: s, c :: w => c == d && startsWithChars s w

/-- Does the word `w` occur at the head of `s`, followed by a word
boundary (end of string or a non-word character)? -/
def wordAtHead : List Char → List Char → Bool
  | [], [] => true
  | [], c :: _ => !(isWordChar c)
  | _ :: _, [] => false
  | c :: w, d :: s => c == d && wordAtHead w s

/-- Scan `s` for an occurrence of `w` delimited by word boundaries;
the Bool argument records whether the previous character was a word
character (so the left boundary can be checked). -/
def searchFrom (w : List Char) : Bool → List Char → Bool
  | prev, [] => !prev && wordAtHead w []
  | prev, c :: s => (!prev && wordAtHead w (c :: s)) || searchFrom w (isWordChar c) s

/-- `containsWholeWord s w` models `re.search(r"\bw\b", s) is not None`. -/
def containsWholeWord (s : List Char) (w : String) : Bool := searchFrom w.data false s

/-- The denylisted keywords of `server.py` line 77. -/
def DENYLIST : List String := ["DROP", "DELETE", "UPDATE", "INSERT", "ALTER", "CREATE", "ATTACH"]

/-- Result of the `query` tool: either the error dict (single key
`error`) or the success dict with keys `columns`, `rows`, `row_count`,
`truncated`.  `ρ` is the row type delivered by the database. -/
inductive QueryOut (ρ : Type) where
  | err (msg : String)
  | ok (columns : List String) (rows : List ρ) (row_count : Nat) (truncated : Bool)
deriving DecidableEq

/-- Embedding of `query` (server.py lines 66-94).  `exec` abstracts
`session.execute(text(sql))` together with `result.keys()` and the full
row stream: `.error e` is an exception raised during execution/fetching,
`.ok (cols, allRows)` a successful cursor.  `fetchmany limit` is
modelled by `List.take`. -/
def query {ρ : Type} (sql : String) (limit : Nat)
    (exec : Except String (List String × List ρ)) : QueryOut ρ :=
  let normalized := pyNormalize sql
  if !(startsWithChars normalized "SELECT".data) then
    QueryOut.err "Only SELECT queries are allowed."
  else if DENYLIST.any (fun w => containsWholeWord normalized w) then
    QueryOut.err "Modification queries are not allowed."
  else
    let limit := min limit 1000
    match exec with
    | .error e => QueryOut.err e
    | .ok p =>
      let rows := p.2.take limit
      QueryOut.ok p.1 rows rows.length (rows.length == limit)

/- ═══════════════ Upsert store (sync.py, `_upsert`) ═══════════════ -/

/-- A row's non-key columns: an assignment of values to column names
(a Python keyword/attribute dict). -/
abbrev Cols (V : Type) := List (String × V)

/-- One `setattr(obj, k, v)`: overwrite column `k` (first occurrence)
or add it if absent. -/
def setCol {V : Type} : Cols V → String → V → Cols V
  | [], k, v => [(k, v)]
  | (k', v') :: rest, k, v =>
    if k' = k then (k, v) :: rest else (k', v') :: setCol rest k v

/-- The update branch of `_upsert`: `for k, v in values.items():
setattr(obj, k, v)`. -/
def setVals {V : Type} (cols values : Cols V) : Cols V :=
  values.foldl (fun c kv => setCol c kv.1 kv.2) cols

/-- Overwrite the first row whose key equals `key` (SQLAlchemy
`.first()` on the key filter); other rows are untouched. -/
def updateFirst {K V : Type} [DecidableEq K] :
    List (K × Cols V) → K → Cols V → List (K × Cols V)
  | [], _, _ => []
  | (k, cols) :: rest, key, values =>
    if k = key then (k, setVals cols values) :: rest
    else (k, cols) :: updateFirst rest key values

/-- Embedding of `_upsert` (sync.py lines 105-112): look up an existing
row by primary key; if found, overwrite the columns named in `values`;
otherwise add a new row built from the key and `values`
(`model(**pk_filter, **values)`). -/
def _upsert {K V : Type} [DecidableEq K]
    (table : List (K × Cols V)) (key : K) (values : Cols V) : List (K × Cols V) :=
  if (table.find? (fun r => decide (r.1 = key))).isSome then
    updateFirst table key values
  else
    table ++ [(key, values)]

/-- Number of rows of `table` whose primary key is `key`. -/
def countKey {K V : Type} [DecidableEq K] (table : List (K × Cols V)) (key : K) : Nat :=
  (table.filter (fun r => decide (r.1 = key))).length

/- ═══════════ Date-ranged category sync (sync.py, `_sync_daily_summaries`) ═══════════ -/

/-- The per-date loop of `_sync_daily_summaries` (sync.py lines
162-185).  `fetch d` abstracts `client.get_stats(d)` together with the
normalization into `vals`: `.error e` is an exception raised while
fetching or normalizing that date (swallowed by the inner
`except Exception: pass`), `.ok none` is an empty payload (`if not
stats: continue`), `.ok (some vals)` a normalized row to upsert. -/
def dailyLoop {V : Type} (fetch : String → Except String (Option (Cols V))) :
    List String → List (String × Cols V) → Nat → List (String × Cols V) × Nat
  | [], store, count => (store, count)
  | d :: rest, store, count =>
    match fetch d with
    | .error _ => dailyLoop fetch rest store count
    | .ok none => dailyLoop fetch rest store count
    | .ok (some vals) => dailyLoop fetch rest (_upsert store d vals) (count + 1)

/-- Embedding of `_sync_daily_summaries` (sync.py lines 157-190): run
the per-date loop, then commit; on a commit failure roll back to the
original store and return the accumulated count with the exception
message.  Returns `(store, count, error)`. -/
def _sync_daily_summaries {V : Type} (fetch : String → Except String (Option (Cols V)))
    (dates : List String) (commitRes : Except String Unit)
    (store : List (String × Cols V)) : List (String × Cols V) × Nat × Option String :=
  let p := dailyLoop fetch dates store 0
  match commitRes with
  | .ok _ => (p.1, p.2, none)
  | .error e => (store, p.2, some e)

/-- Does this per-date fetch outcome lead to an upserted row? -/
def fetchHit {V : Type} (r : Except String (Option (Cols V))) : Bool :=
  match r with
  | .ok (some _) => true
  | _ => false

/- ═══════════════ Orchestrator (sync.py, `sync_all`) ═══════════════ -/

/-- The `(count, err)` pair every category syncer returns. -/
structure CatResult where
  count : Nat
  err : Option String
deriving DecidableEq

/-- Abstraction of one `sync_all` run's interactions: the outcome each
category syncer would produce on this invocation.  `activities`
additionally yields the activity ID list; the two per-activity detail
syncers are functions of that list (they are only ever applied when the
orchestrator invokes them). -/
structure SyncClient where
  activities : Nat × List String × Option String
  daily_summary : CatResult
  sleep : CatResult
  heart_rate : CatResult
  body_composition : CatResult
  training_readiness : CatResult
  hrv : CatResult
  training_status : CatResult
  fitness_scores : CatResult
  race_predictions : CatResult
  personal_records : CatResult
  activity_hr_zones : List String → CatResult
  activity_splits : List String → CatResult

/-- Replace only the two per-activity detail syncers of a client. -/
def withDetails (c : SyncClient) (f g : List String → CatResult) : SyncClient :=
  ⟨c.activities, c.daily_summary, c.sleep, c.heart_rate, c.body_composition,
   c.training_readiness, c.hrv, c.training_status, c.fitness_scores,
   c.race_predictions, c.personal_records, f, g⟩

/-- `if err: warnings.append(f"..name..: ..err..")` as a list. -/
def catWarning (name : String) (err : Option String) : List String :=
  match err with
  | some e => [name ++ ": " ++ e]
  | none => []

/-- The categories `sync_all` runs after `activities`, in source order
(sync.py lines 41-75): the eight date-ranged categories, the two
non-dated ones, and — only when the activity ID list is non-empty — the
two per-activity detail categories. -/
def catsOf (c : SyncClient) : List (String × CatResult) :=
  [("daily_summary", c.daily_summary), ("sleep", c.sleep),
   ("heart_rate", c.heart_rate), ("body_composition", c.body_composition),
   ("training_readiness", c.training_readiness), ("hrv", c.hrv),
   ("training_status", c.training_status), ("fitness_scores", c.fitness_scores),
   ("race_predictions", c.race_predictions), ("personal_records", c.personal_records)]
  ++ (if c.activities.2.1.isEmpty then []
      else [("activity_hr_zones", c.activity_hr_zones c.activities.2.1),
            ("activity_splits", c.activity_splits c.activities.2.1)])

/-- The `results` dict accumulated by `sync_all`. -/
def syncedOf (c : SyncClient) : List (String × Nat) :=
  ("activities", c.activities.1) :: (catsOf c).map (fun p => (p.1, p.2.count))

/-- The `warnings` list accumulated by `sync_all`, in source order. -/
def warningsOf (c : SyncClient) : List String :=
  catWarning "activities" c.activities.2.2
    ++ (catsOf c).flatMap (fun p => catWarning p.1 p.2.err)

/-- JSON-compatible values appearing in the `sync_all` result dict. -/
inductive SVal where
  | s (v : String)
  | num (v : Nat)
  | counts (v : List (String × Nat))
  | warns (v : List String)
deriving DecidableEq

/-- Embedding of `sync_all`'s result assembly (sync.py lines 77-80):
`out = dict(status="ok", synced=results, days=days)`, with a `warnings`
key added only when the warnings list is non-empty. -/
def sync_all (c : SyncClient) (days : Nat) : List (String × SVal) :=
  let out := [("status", SVal.s "ok"), ("synced", SVal.counts (syncedOf c)),
              ("days", SVal.num days)]
  if (warningsOf c).isEmpty then out
  else out ++ [("warnings", SVal.warns (warningsOf c))]

/- ═══════ Per-activity detail sync (sync.py, HR zones and splits) ═══════ -/

/-- The outcome of processing one activity inside a detail loop:
`.ok rows` — the fetch and every per-row upsert succeed and `rows` get
committed; `.fail written msg` — an exception is raised after the rows
in `written` were already upserted (e.g. a 403 from the fetch, with
`written = []`, or a malformed record mid-loop), so the pending writes
are rolled back.  `R` is the keyed-row type `K × Cols V`. -/
inductive DetailOutcome (R : Type) where
  | ok (rows : List R)
  | fail (written : List R) (msg : String)

/-- Commit a batch of keyed rows into the store, one `_upsert` each. -/
def commitRows {K V : Type} [DecidableEq K]
    (store : List (K × Cols V)) (rows : List (K × Cols V)) : List (K × Cols V) :=
  rows.foldl (fun s r => _upsert s r.1 r.2) store

/-- The per-activity loop of `_sync_activity_hr_zones` (sync.py lines
520-548): on success commit the activity's rows and add them to the
count; on failure roll back (the store is unchanged — only the already
executed `count += 1` increments survive) and continue silently. -/
def hrZonesLoop {K V : Type} [DecidableEq K]
    (outcome : String → DetailOutcome (K × Cols V)) :
    List String → List (K × Cols V) → Nat → List (K × Cols V) × Nat
  | [], store, count => (store, count)
  | aid :: rest, store, count =>
    match outcome aid with
    | .ok rows => hrZonesLoop outcome rest (commitRows store rows) (count + rows.length)
    | .fail written _ => hrZonesLoop outcome rest store (count + written.length)

/-- Embedding of `_sync_activity_hr_zones` (sync.py lines 510-549): run
the loop; the returned error is always `None` — per-activity failures
are deliberately not accumulated ("403 is common"). -/
def _sync_activity_hr_zones {K V : Type} [DecidableEq K]
    (outcome : String → DetailOutcome (K × Cols V)) (ids : List String)
    (store : List (K × Cols V)) : List (K × Cols V) × Nat × Option String :=
  let p := hrZonesLoop outcome ids store 0
  (p.1, p.2, none)

/-- The per-activity loop of `_sync_activity_splits` (sync.py lines
558-591): like the HR-zone loop, but each failure appends
`"splits(<aid>): <msg>"` to the error accumulator. -/
def splitsLoop {K V : Type} [DecidableEq K]
    (outcome : String → DetailOutcome (K × Cols V)) :
    List String → List (K × Cols V) → Nat → List String →
      List (K × Cols V) × Nat × List String
  | [], store, count, errs => (store, count, errs)
  | aid :: rest, store, count, errs =>
    match outcome aid with
    | .ok rows => splitsLoop outcome rest (commitRows store rows) (count + rows.length) errs
    | .fail written msg =>
        splitsLoop outcome rest store (count + written.length)
          (errs ++ ["splits(" ++ aid ++ "): " ++ msg])

/-- Embedding of `_sync_activity_splits` (sync.py lines 552-592):
`return count, "; ".join(errors) if errors else None`. -/
def _sync_activity_splits {K V : Type} [DecidableEq K]
    (outcome : String → DetailOutcome (K × Cols V)) (ids : List String)
    (store : List (K × Cols V)) : List (K × Cols V) × Nat × Option String :=
  let p := splitsLoop outcome ids store 0 []
  (p.1, p.2.1, if p.2.2.isEmpty then none else some (String.intercalate "; " p.2.2))

/-- The store a detail sync leaves behind, written as a clean fold: a
failed activity contributes nothing (its pending writes were rolled
back), a successful one contributes exactly its rows; the loop always
reaches every activity.  This is the amended-claim formulation compared
against both loop embeddings. -/
def cleanDetailStore {K V : Type} [DecidableEq K]
    (outcome : String → DetailOutcome (K × Cols V)) (ids : List String)
    (store : List (K × Cols V)) : List (K × Cols V) :=
  ids.foldl
    (fun s aid =>
      match outcome aid with
      | .ok rows => commitRows s rows
      | .fail _ _ => s)
    store

/-- The per-activity failure messages the splits syncer accumulates. -/
def splitFailures {K V : Type}
    (outcome : String → DetailOutcome (K × Cols V)) (ids : List String) : List String :=
  ids.filterMap
    (fun aid =>
      match outcome aid with
      | .ok _ => none
      | .fail _ m => some ("splits(" ++ aid ++ "): " ++ m))

/- ═══════ HR zone normalization (sync.py, `_sync_activity_hr_zones` body) ═══════ -/

/-- One raw zone record as delivered by the remote client; `none`
models an absent key. -/
structure ZoneIn where
  zoneNumber : Option Int
  zoneLowBoundary : Option Int
  startBpm : Option Int
  secsInZone : Option Int
  duration : Option Int
deriving DecidableEq

/-- Python truthiness of an optional integer (`None` and `0` are
falsy). -/
def truthyOptInt : Option Int → Bool
  | some x => x != 0
  | none => false

/-- Python `a or b` on optional integers. -/
def pyOrOpt (a b : Option Int) : Option Int :=
  if truthyOptInt a then a else b

/-- `(_g(zones[i+1], "zoneLowBoundary") or 0) - 1` (sync.py line 532). -/
def nextMaxRaw (nz : ZoneIn) : Int :=
  (pyOrOpt nz.zoneLowBoundary (some 0)).getD 0 - 1

/-- The stored `vals` of one HR zone row. -/
structure ZoneVals where
  zone_name : String
  min_hr : Option Int
  max_hr : Option Int
  duration_sec : Option Int
deriving DecidableEq

/-- Embedding of the `for i, z in enumerate(zones)` body of
`_sync_activity_hr_zones` (sync.py lines 527-543), producing the
`(zone_number, vals)` pairs that get upserted.  The first argument is
the running index `i`; `zones[i+1]` is the head of the remaining
list. -/
def zoneRows : Nat → List ZoneIn → List (Int × ZoneVals)
  | _, [] => []
  | i, z :: rest =>
    let zn : Int := z.zoneNumber.getD (Int.ofNat (i + 1))
    let min_hr := pyOrOpt z.zoneLowBoundary z.startBpm
    let max0 : Option Int :=
      match rest with
      | [] => none
      | nz :: _ => some (nextMaxRaw nz)
    let max_hr : Option Int :=
      match max0 with
      | some m => if m ≠ 0 ∧ m > 0 then some m else none
      | none => none
    let duration_sec := pyOrOpt z.secsInZone z.duration
    (zn, ⟨"Zone " ++ toString zn, min_hr, max_hr, duration_sec⟩)
      :: zoneRows (i + 1) rest

/-- A zone record carrying only a start boundary, as in the claim's
"zones arrive as a sequence of zone-start boundary values". -/
def mkZoneIn (b : Int) : ZoneIn := ⟨none, some b, none, none, none⟩

/-- The upper bounds the amended claim predicts: start of the next zone
minus one when that is strictly positive, otherwise absent; the final
zone always absent. -/
def specUpper : List Int → List (Option Int)
  | [] => []
  | [_] => [none]
  | _ :: b :: rest =>
    (if 0 < b - 1 then some (b - 1) else none) :: specUpper (b :: rest)

/- ═══════ Split pace derivation (sync.py, `_sync_activity_splits` body) ═══════ -/

/-- `f"{pm}:{ps:02d}"` after `pm, ps = divmod(int(pace_s_per_km), 60)`
(sync.py lines 573-574); the pace reaching this point is positive, and
Python's truncating `int()` on a positive rational is `num / den`. -/
def fmtPace (pace_s_per_km : ℚ) : String :=
  let t := pace_s_per_km.num.toNat / pace_s_per_km.den
  let pm := t / 60
  let ps := t % 60
  toString pm ++ ":" ++ (if ps < 10 then "0" else "") ++ toString ps

/-- Embedding of the pace derivation (sync.py lines 569-574):
`if avg_speed and avg_speed > 0: pace_s_per_km = 1000 / avg_speed; ...`
with `pace_str` staying `None` otherwise.  Machine floats are modelled
as rationals. -/
def splitPace (avg_speed : Option ℚ) : Option String :=
  match avg_speed with
  | none => none
  | some v => if v ≠ 0 ∧ 0 < v then some (fmtPace (1000 / v)) else none

/- ═══════════════ Theorems ═══════════════ -/

/-- C1: if the trimmed, uppercased copy of `sql` does not start with
`SELECT`, the query tool returns the error result "Only SELECT queries
are allowed." and executes nothing against the store; if it does start
with `SELECT` but contains a denylisted keyword as a whole word, it
returns an error result and executes nothing.  Non-execution is
expressed by the result being the same constant for every possible
`exec` behaviour. -/
theorem query_select_only {ρ : Type} (sql : String) (limit : Nat)
    (exec : Except String (List String × List ρ)) :
    (startsWithChars (pyNormalize sql) "SELECT".data = false →
      query sql limit exec = QueryOut.err "Only SELECT queries are allowed.") ∧
    (startsWithChars (pyNormalize sql) "SELECT".data = true →
      DENYLIST.any (fun w => containsWholeWord (pyNormalize sql) w) = true →
      query sql limit exec = QueryOut.err "Modification queries are not allowed.") := by
  constructor
  · intro h
    simp [query, h]
  · intro h1 h2
    simp [query, h1, h2]

/-- C1 witness: a non-SELECT statement is rejected with the exact error
message, and a SELECT carrying a denylisted whole word is rejected,
evaluated at concrete inputs. -/
theorem query_select_only_witness :
    query "drop table activities" 100 (Except.ok (([] : List String), ([] : List Unit)))
      = QueryOut.err "Only SELECT queries are allowed." ∧
    query "SELECT * FROM activities; DROP TABLE activities" 100
      (Except.ok (([] : List String), ([] : List Unit)))
      = QueryOut.err "Modification queries are not allowed." :=
  ⟨(query_select_only _ _ _).1 (by decide),
   (query_select_only _ _ _).2 (by decide) (by decide)⟩

theorem lookup_setCol {V : Type} (cols : Cols V) (k : String) (v : V) (c : String) :
    (setCol cols k v).lookup c = if c = k then some v else cols.lookup c := by
  induction cols with
  | nil =>
    simp only [setCol, List.lookup]
    cases hbe : c == k <;> simp_all [beq_iff_eq]
  | cons p rest ih =>
    obtain ⟨k', v'⟩ := p
    by_cases h : k' = k
    · subst h
      simp only [setCol, if_pos rfl, List.lookup]
      cases hbe : c == k' <;> simp_all [beq_iff_eq]
    · simp only [setCol, if_neg h, List.lookup]
      cases hbe : c == k' with
      | true =>
        have hck : c = k' := by simpa [beq_iff_eq] using hbe
        have hck2 : ¬ c = k := by rw [hck]; exact h
        simp [hbe, hck2]
      | false =>
        simp [hbe, ih]

theorem lookup_setVals_notmem {V : Type} (vs : Cols V) (cols : Cols V) (c : String)
    (h : c ∉ vs.map Prod.fst) :
    (setVals cols vs).lookup c = cols.lookup c := by
  induction vs generalizing cols with
  | nil => rfl
  | cons p rest ih =>
    simp only [List.map_cons, List.mem_cons, not_or] at h
    have hstep : setVals cols (p :: rest) = setVals (setCol cols p.1 p.2) rest := rfl
    rw [hstep, ih _ h.2, lookup_setCol, if_neg h.1]

theorem lookup_setVals_mem {V : Type} (vs : Cols V) (cols : Cols V) (c : String) (v : V)
    (hnd : (vs.map Prod.fst).Nodup) (hmem : (c, v) ∈ vs) :
    (setVals cols vs).lookup c = some v := by
  induction vs generalizing cols with
  | nil => cases hmem
  | cons p rest ih =>
    simp only [List.map_cons, List.nodup_cons] at hnd
    have hstep : setVals cols (p :: rest) = setVals (setCol cols p.1 p.2) rest := rfl
    rcases List.mem_cons.mp hmem with heq | htail
    · subst heq
      rw [hstep, lookup_setVals_notmem _ _ _ hnd.1, lookup_setCol, if_pos rfl]
    · exact hstep ▸ ih _ hnd.2 htail

theorem lookup_pairs_nodup {V : Type} (vs : Cols V) (c : String) (v : V)
    (hnd : (vs.map Prod.fst).Nodup) (hmem : (c, v) ∈ vs) :
    vs.lookup c = some v := by
  induction vs with
  | nil => cases hmem
  | cons p rest ih =>
    simp only [List.map_cons, List.nodup_cons] at hnd
    rcases List.mem_cons.mp hmem with heq | htail
    · subst heq
      simp [List.lookup]
    · have hne : c ≠ p.1 := by
        intro he
        exact hnd.1 (he ▸ List.mem_map_of_mem Prod.fst htail)
      have hbe : (c == p.1) = false := by simp [beq_iff_eq, hne]
      simp [List.lookup, hbe, ih hnd.2 htail]

theorem keys_updateFirst {K V : Type} [DecidableEq K]
    (t : List (K × Cols V)) (key : K) (vs : Cols V) :
    (updateFirst t key vs).map Prod.fst = t.map Prod.fst := by
  induction t with
  | nil => rfl
  | cons p rest ih =>
    obtain ⟨k, cols⟩ := p
    by_cases h : k = key <;> simp [updateFirst, h, ih]

theorem countKey_cons {K V : Type} [DecidableEq K]
    (k : K) (cols : Cols V) (rest : List (K × Cols V)) (k' : K) :
    countKey ((k, cols) :: rest) k' = (if k = k' then 1 else 0) + countKey rest k' := by
  by_cases h : k = k'
  · simp [countKey, List.filter_cons, h]
    omega
  · simp [countKey, List.filter_cons, h]

theorem countKey_updateFirst {K V : Type} [DecidableEq K]
    (t : List (K × Cols V)) (key k' : K) (vs : Cols V) :
    countKey (updateFirst t key vs) k' = countKey t k' := by
  induction t with
  | nil => rfl
  | cons p rest ih =>
    obtain ⟨k, cols⟩ := p
    by_cases h : k = key
    · subst h
      have hstep : updateFirst ((k, cols) :: rest) k vs = (k, setVals cols vs) :: rest := by
        simp [updateFirst]
      rw [hstep, countKey_cons, countKey_cons]
    · simp only [updateFirst, if_neg h]
      rw [countKey_cons, countKey_cons, ih]

theorem countKey_eq_zero {K V : Type} [DecidableEq K]
    (t : List (K × Cols V)) (key : K) (h : key ∉ t.map Prod.fst) :
    countKey t key = 0 := by
  induction t with
  | nil => rfl
  | cons p rest ih =>
    obtain ⟨k, cols⟩ := p
    simp only [List.map_cons, List.mem_cons, not_or] at h
    have hne : ¬ (k = key) := fun he => h.1 he.symm
    rw [countKey_cons, if_neg hne, ih h.2]

theorem countKey_eq_one {K V : Type} [DecidableEq K]
    (t : List (K × Cols V)) (key : K)
    (hnd : (t.map Prod.fst).Nodup) (hmem : key ∈ t.map Prod.fst) :
    countKey t key = 1 := by
  induction t with
  | nil => cases hmem
  | cons p rest ih =>
    obtain ⟨k, cols⟩ := p
    simp only [List.map_cons, List.nodup_cons] at hnd
    rcases List.mem_cons.mp hmem with heq | htail
    · have h0 : countKey rest key = 0 := countKey_eq_zero _ _ (heq.symm ▸ hnd.1)
      rw [countKey_cons, if_pos heq.symm, h0]
    · have hne : ¬ (k = key) := fun he => hnd.1 (he.symm ▸ htail)
      rw [countKey_cons, if_neg hne, ih hnd.2 htail]

theorem mem_keys_upsert_self {K V : Type} [DecidableEq K]
    (t : List (K × Cols V)) (key : K) (vs : Cols V) :
    key ∈ (_upsert t key vs).map Prod.fst := by
  unfold _upsert
  split
  · next h =>
    rw [keys_updateFirst]
    rw [List.find?_isSome] at h
    obtain ⟨r, hr, hk⟩ := h
    exact (of_decide_eq_true hk) ▸ List.mem_map_of_mem Prod.fst hr
  · simp

theorem keys_upsert_nodup {K V : Type} [DecidableEq K]
    (t : List (K × Cols V)) (key : K) (vs : Cols V)
    (hnd : (t.map Prod.fst).Nodup) :
    ((_upsert t key vs).map Prod.fst).Nodup := by
  unfold _upsert
  split
  · next h => rwa [keys_updateFirst]
  · next h =>
    have hnone : t.find? (fun r => decide (r.1 = key)) = none := by
      cases hfind : t.find? (fun r => decide (r.1 = key)) with
      | none => rfl
      | some x => rw [hfind] at h; simp at h
    have hnot : key ∉ t.map Prod.fst := by
      intro hk
      obtain ⟨r, hr, he⟩ := List.mem_map.mp hk
      have hnp := List.find?_eq_none.mp hnone r hr
      simp [he] at hnp
    simp only [List.map_append, List.map_cons, List.map_nil]
    refine List.nodup_append.mpr ⟨hnd, List.nodup_singleton key, ?_⟩
    intro a ha hb
    rw [List.mem_singleton] at hb
    exact hnot (hb ▸ ha)

theorem updateFirst_key_cols {K V : Type} [DecidableEq K]
    (t : List (K × Cols V)) (key : K) (vs : Cols V)
    (hnd : (t.map Prod.fst).Nodup) :
    ∀ r ∈ updateFirst t key vs, r.1 = key → ∃ cols0, r.2 = setVals cols0 vs := by
  induction t with
  | nil => intro r hr; cases hr
  | cons p rest ih =>
    obtain ⟨k, cols⟩ := p
    simp only [List.map_cons, List.nodup_cons] at hnd
    intro r hr hkey
    by_cases h : k = key
    · subst h
      simp only [updateFirst, if_pos rfl] at hr
      rcases List.mem_cons.mp hr with heq | htail
      · exact ⟨cols, by rw [heq]⟩
      · exact absurd (hkey ▸ List.mem_map_of_mem Prod.fst htail) hnd.1
    · simp only [updateFirst, if_neg h] at hr
      rcases List.mem_cons.mp hr with heq | htail
      · rw [heq] at hkey
        exact absurd hkey h
      · exact ih hnd.2 r htail hkey

theorem upsert_key_cols {K V : Type} [DecidableEq K]
    (t : List (K × Cols V)) (key : K) (vs : Cols V)
    (hnd : (t.map Prod.fst).Nodup) :
    ∀ r ∈ _upsert t key vs, r.1 = key →
      (∃ cols0, r.2 = setVals cols0 vs) ∨ r.2 = vs := by
  unfold _upsert
  split
  · intro r hr hk
    exact Or.inl (updateFirst_key_cols t key vs hnd r hr hk)
  · next h =>
    intro r hr hk
    rcases List.mem_append.mp hr with hin | hone
    · exfalso
      have := List.find?_eq_none.mp (by
        cases hfind : t.find? (fun r => decide (r.1 = key)) with
        | none => rfl
        | some x => simp [hfind] at h) r hin
      simp [hk] at this
    · simp only [List.mem_singleton] at hone
      exact Or.inr (by rw [hone])

/-- C2: applying `_upsert` twice with the same `(table, key, values)`
yields exactly one row with that key, whose columns named in `values`
equal the second application's values — no duplicate row is created and
the second application overwrites in place.  The store invariant (at
most one row per key) and the dict nature of `values` (distinct column
names) are the hypotheses. -/
theorem upsert_idempotent {K V : Type} [DecidableEq K]
    (table : List (K × Cols V)) (key : K) (values : Cols V)
    (htab : (table.map Prod.fst).Nodup) (hvals : (values.map Prod.fst).Nodup) :
    countKey (_upsert (_upsert table key values) key values) key = 1 ∧
    ∀ r ∈ _upsert (_upsert table key values) key values, r.1 = key →
      ∀ p ∈ values, r.2.lookup p.1 = some p.2 := by
  have h1nd := keys_upsert_nodup table key values htab
  have h1mem := mem_keys_upsert_self table key values
  have h2nd := keys_upsert_nodup (_upsert table key values) key values h1nd
  have h2mem := mem_keys_upsert_self (_upsert table key values) key values
  constructor
  · exact countKey_eq_one _ _ h2nd h2mem
  · intro r hr hk p hp
    rcases upsert_key_cols (_upsert table key values) key values h1nd r hr hk with
      ⟨cols0, hc⟩ | hc
    · rw [hc]
      exact lookup_setVals_mem values cols0 p.1 p.2 hvals hp
    · rw [hc]
      exact lookup_pairs_nodup values p.1 p.2 hvals hp

/-- C2 witness: upserting the same dated row twice into an empty store
leaves exactly one row carrying the given values. -/
theorem upsert_idempotent_witness :
    countKey (_upsert (_upsert ([] : List (String × Cols Nat)) "2024-01-01" [("steps", 5)])
        "2024-01-01" [("steps", 5)]) "2024-01-01" = 1 ∧
    ∀ r ∈ _upsert (_upsert ([] : List (String × Cols Nat)) "2024-01-01" [("steps", 5)])
        "2024-01-01" [("steps", 5)], r.1 = "2024-01-01" →
      ∀ p ∈ [("steps", 5)], r.2.lookup p.1 = some p.2 :=
  upsert_idempotent [] "2024-01-01" [("steps", 5)] (by simp) (by simp)

theorem dailyLoop_count {V : Type} (fetch : String → Except String (Option (Cols V)))
    (l : List String) (s : List (String × Cols V)) (n : Nat) :
    (dailyLoop fetch l s n).2 = n + l.countP (fun d => fetchHit (fetch d)) := by
  induction l generalizing s n with
  | nil => simp [dailyLoop]
  | cons d rest ih =>
    cases hf : fetch d with
    | error e =>
      simp only [dailyLoop, hf]
      rw [ih, List.countP_cons]
      simp [fetchHit, hf]
    | ok o =>
      cases o with
      | none =>
        simp only [dailyLoop, hf]
        rw [ih, List.countP_cons]
        simp [fetchHit, hf]
      | some v =>
        simp only [dailyLoop, hf]
        rw [ih, List.countP_cons]
        simp [fetchHit, hf]
        omega

theorem countP_hit_of_one_fail {V : Type} (fetch : String → Except String (Option (Cols V)))
    (e0 : String) :
    ∀ l : List String, l.Nodup → ∀ d0, d0 ∈ l → fetch d0 = .error e0 →
      (∀ d ∈ l, d ≠ d0 → ∃ v : Cols V, fetch d = .ok (some v)) →
      l.countP (fun d => fetchHit (fetch d)) = l.length - 1 := by
  intro l
  induction l with
  | nil => intro _ d0 hmem; cases hmem
  | cons a rest ih =>
    intro hnd d0 hmem hfail hok
    rw [List.nodup_cons] at hnd
    rcases List.mem_cons.mp hmem with heq | htail
    · subst heq
      have hall : ∀ d ∈ rest, fetchHit (fetch d) = true := by
        intro d hd
        have hne : d ≠ d0 := fun he => hnd.1 (he ▸ hd)
        obtain ⟨v, hv⟩ := hok d (List.mem_cons_of_mem _ hd) hne
        rw [hv]
        rfl
      have h0 : fetchHit (fetch d0) = false := by rw [hfail]; rfl
      rw [List.countP_cons, h0]
      have hc : rest.countP (fun d => fetchHit (fetch d)) = rest.length :=
        List.countP_eq_length.mpr hall
      simp [hc]
    · have hane : a ≠ d0 := fun he => hnd.1 (he ▸ htail)
      obtain ⟨v, hv⟩ := hok a (List.mem_cons_self a rest) hane
      have h1 : fetchHit (fetch a) = true := by rw [hv]; rfl
      rw [List.countP_cons, h1]
      have hrest := ih hnd.2 d0 htail hfail
        (fun d hd hne => hok d (List.mem_cons_of_mem _ hd) hne)
      have hpos : 1 ≤ rest.length := List.length_pos.mpr (List.ne_nil_of_mem htail)
      simp only [List.length_cons, if_pos (Eq.refl true), if_true]
      omega

/-- C3: if fetching/normalizing raises for exactly one date of the
window and yields valid data for every other date, the exception is
swallowed, the loop continues, the returned row count equals the number
of successfully processed dates (range length minus one), and the
returned error string is null. -/
theorem daily_summaries_per_date_isolation {V : Type}
    (fetch : String → Except String (Option (Cols V)))
    (dates : List String) (store : List (String × Cols V)) (d0 e0 : String)
    (hmem : d0 ∈ dates) (hnd : dates.Nodup)
    (hfail : fetch d0 = .error e0)
    (hok : ∀ d ∈ dates, d ≠ d0 → ∃ v : Cols V, fetch d = .ok (some v)) :
    (_sync_daily_summaries fetch dates (.ok ()) store).2.1 = dates.length - 1 ∧
    (_sync_daily_summaries fetch dates (.ok ()) store).2.2 = none := by
  refine ⟨?_, rfl⟩
  have hc : (_sync_daily_summaries fetch dates (.ok ()) store).2.1
      = dates.countP (fun d => fetchHit (fetch d)) := by
    simp [_sync_daily_summaries, dailyLoop_count]
  rw [hc]
  exact countP_hit_of_one_fail fetch e0 dates hnd d0 hmem hfail hok

/-- Concrete three-day window whose middle day raises (the spec's
end-to-end scenario). -/
def fetch3 : String → Except String (Option (Cols Nat)) :=
  fun d =>
    if d = "2024-01-02" then Except.error "401 forbidden"
    else Except.ok (some [("steps", 1000)])

/-- C3 witness: a 3-day window whose second day raises yields count 2
and no error string. -/
theorem daily_summaries_per_date_isolation_witness :
    (_sync_daily_summaries fetch3 ["2024-01-01", "2024-01-02", "2024-01-03"]
        (.ok ()) []).2.1 = 2 ∧
    (_sync_daily_summaries fetch3 ["2024-01-01", "2024-01-02", "2024-01-03"]
        (.ok ()) []).2.2 = none :=
  daily_summaries_per_date_isolation fetch3 _ [] "2024-01-02" "401 forbidden"
    (by decide) (by decide) (by simp [fetch3])
    (by
      intro d hd hne
      fin_cases hd
      · exact ⟨[("steps", 1000)], by simp [fetch3]⟩
      · exact absurd rfl hne
      · exact ⟨[("steps", 1000)], by simp [fetch3]⟩)

theorem catWarning_eq_nil (name : String) (err : Option String) :
    catWarning name err = [] ↔ err = none := by
  cases err <;> simp [catWarning]

theorem warningsOf_form (c : SyncClient) :
    ∀ w ∈ warningsOf c, ∃ name msg,
      name ∈ "activities" :: (catsOf c).map Prod.fst ∧ w = name ++ ": " ++ msg := by
  intro w hw
  rcases List.mem_append.mp hw with h1 | h2
  · cases he : c.activities.2.2 with
    | none => rw [he] at h1; cases h1
    | some e =>
      rw [he] at h1
      simp only [catWarning, List.mem_singleton] at h1
      exact ⟨"activities", e, by simp, h1⟩
  · rw [List.mem_flatMap] at h2
    obtain ⟨p, hp, hw2⟩ := h2
    cases he : p.2.err with
    | none => rw [he] at hw2; cases hw2
    | some e =>
      rw [he] at hw2
      simp only [catWarning, List.mem_singleton] at hw2
      exact ⟨p.1, e, List.mem_cons_of_mem _ (List.mem_map_of_mem Prod.fst hp), hw2⟩

theorem warningsOf_ne_nil (c : SyncClient) :
    warningsOf c ≠ [] ↔
      (c.activities.2.2.isSome = true ∨ ∃ p ∈ catsOf c, p.2.err.isSome = true) := by
  unfold warningsOf
  rw [ne_eq, List.append_eq_nil, not_and_or]
  constructor
  · rintro (h1 | h2)
    · left
      cases he : c.activities.2.2 with
      | none => exact absurd ((catWarning_eq_nil _ _).mpr he) h1
      | some e => rfl
    · right
      obtain ⟨w, hwmem⟩ := List.exists_mem_of_ne_nil _ h2
      rw [List.mem_flatMap] at hwmem
      obtain ⟨p, hp, hw2⟩ := hwmem
      refine ⟨p, hp, ?_⟩
      cases he : p.2.err with
      | none => rw [he] at hw2; cases hw2
      | some e => rfl
  · rintro (h1 | ⟨p, hp, h2⟩)
    · left
      cases he : c.activities.2.2 with
      | none => rw [he] at h1; cases h1
      | some e => simp [catWarning, he]
    · right
      intro hnil
      rw [List.flatMap_eq_nil_iff] at hnil
      have hpw := hnil p hp
      cases he : p.2.err with
      | none => rw [he] at h2; cases h2
      | some e => rw [he] at hpw; cases hpw

/-- C4: `sync_all`'s result always has `status = "ok"`, never carries a
top-level `error` key, has the `warnings` key present exactly when at
least one invoked category reported an error, and every warnings entry
has the form `"category: message"` for one of the invoked
categories. -/
theorem sync_all_ok_and_warnings (c : SyncClient) (days : Nat) :
    (sync_all c days).lookup "status" = some (SVal.s "ok") ∧
    (sync_all c days).lookup "error" = none ∧
    ((sync_all c days).lookup "warnings" ≠ none ↔
      (c.activities.2.2.isSome = true ∨ ∃ p ∈ catsOf c, p.2.err.isSome = true)) ∧
    ∀ w ∈ warningsOf c, ∃ name msg,
      name ∈ "activities" :: (catsOf c).map Prod.fst ∧ w = name ++ ": " ++ msg := by
  have hiff := warningsOf_ne_nil c
  by_cases hw : (warningsOf c).isEmpty
  · have hnil : warningsOf c = [] := by simpa [List.isEmpty_iff] using hw
    refine ⟨?_, ?_, ?_, warningsOf_form c⟩
    · simp +decide [sync_all, hw, List.lookup]
    · simp +decide [sync_all, hw, List.lookup]
    · have hnone : (sync_all c days).lookup "warnings" = none := by
        simp +decide [sync_all, hw, List.lookup]
      rw [hnone]
      apply iff_of_false (by simp)
      intro hr
      exact (hiff.mpr hr) hnil
  · have hne : warningsOf c ≠ [] := by simpa [List.isEmpty_iff] using hw
    refine ⟨?_, ?_, ?_, warningsOf_form c⟩
    · simp +decide [sync_all, hw, List.lookup]
    · simp +decide [sync_all, hw, List.lookup]
    · have hsome : (sync_all c days).lookup "warnings"
          = some (SVal.warns (warningsOf c)) := by
        simp +decide [sync_all, hw, List.lookup]
      rw [hsome]
      exact iff_of_true (by simp) (hiff.mp hne)

/-- C7: when the activities sync yields zero activity identifiers, the
two per-activity detail syncers are not invoked at all (the result is
the same for every possible detail-syncer behaviour), and the result
contains no `synced` entries and no `warnings` entries for them (every
warning belongs to one of the other eleven categories). -/
theorem sync_all_detail_dependency (c : SyncClient) (days : Nat)
    (h : c.activities.2.1 = []) :
    (∀ f g, sync_all (withDetails c f g) days = sync_all c days) ∧
    (syncedOf c).lookup "activity_hr_zones" = none ∧
    (syncedOf c).lookup "activity_splits" = none ∧
    (∀ w ∈ warningsOf c, ∃ name msg,
      name ∈ ["activities", "daily_summary", "sleep", "heart_rate", "body_composition",
              "training_readiness", "hrv", "training_status", "fitness_scores",
              "race_predictions", "personal_records"] ∧
      w = name ++ ": " ++ msg) := by
  have hcats10 : (catsOf c).map Prod.fst
      = ["daily_summary", "sleep", "heart_rate", "body_composition",
         "training_readiness", "hrv", "training_status", "fitness_scores",
         "race_predictions", "personal_records"] := by
    simp [catsOf, h]
  refine ⟨?_, ?_, ?_, ?_⟩
  · intro f g
    simp [sync_all, syncedOf, warningsOf, catsOf, withDetails, h]
  · simp +decide [syncedOf, catsOf, h, List.lookup]
  · simp +decide [syncedOf, catsOf, h, List.lookup]
  · intro w hw
    obtain ⟨name, msg, hname, hform⟩ := warningsOf_form c w hw
    rw [hcats10] at hname
    exact ⟨name, msg, hname, hform⟩

/-- A category outcome with no rows and no error. -/
def noopCat : CatResult := ⟨0, none⟩

/-- A client whose activities sync yields no identifiers. -/
def client0 : SyncClient :=
  ⟨(0, [], none), noopCat, noopCat, noopCat, noopCat, noopCat, noopCat,
   noopCat, noopCat, noopCat, noopCat, fun _ => noopCat, fun _ => noopCat⟩

/-- C7 witness: the detail-dependency property evaluated at a concrete
client with an empty activity list. -/
theorem sync_all_detail_dependency_witness :
    (∀ f g, sync_all (withDetails client0 f g) 30 = sync_all client0 30) ∧
    (syncedOf client0).lookup "activity_hr_zones" = none ∧
    (syncedOf client0).lookup "activity_splits" = none ∧
    (∀ w ∈ warningsOf client0, ∃ name msg,
      name ∈ ["activities", "daily_summary", "sleep", "heart_rate", "body_composition",
              "training_readiness", "hrv", "training_status", "fitness_scores",
              "race_predictions", "personal_records"] ∧
      w = name ++ ": " ++ msg) :=
  sync_all_detail_dependency client0 30 rfl

/-- C5: for every call that passes validation with requested limit `L`,
at most `min L 1000` rows are returned (the requested limit is clamped
to the hard ceiling 1000), and the `truncated` flag is true exactly when
the number of returned rows equals the clamped limit. -/
theorem query_row_cap {ρ : Type} (sql : String) (L : Nat)
    (cols : List String) (allRows : List ρ)
    (h1 : startsWithChars (pyNormalize sql) "SELECT".data = true)
    (h2 : DENYLIST.any (fun w => containsWholeWord (pyNormalize sql) w) = false) :
    ∃ rows trunc, query sql L (.ok (cols, allRows)) = QueryOut.ok cols rows rows.length trunc ∧
      rows.length ≤ min L 1000 ∧ (trunc = true ↔ rows.length = min L 1000) := by
  refine ⟨allRows.take (min L 1000), (allRows.take (min L 1000)).length == min L 1000,
    ?_, ?_, ?_⟩
  · simp [query, h1, h2]
  · rw [List.length_take]
    exact min_le_left _ _
  · exact beq_iff_eq

/-- C5 witness: `limit=5000` over 1500 rows yields 1000 rows and
`truncated` iff exactly 1000 were returned. -/
theorem query_row_cap_witness :
    ∃ rows trunc,
      query "SELECT 1" 5000 (.ok (["c"], List.replicate 1500 (0 : Nat)))
        = QueryOut.ok ["c"] rows rows.length trunc ∧
      rows.length ≤ min 5000 1000 ∧ (trunc = true ↔ rows.length = min 5000 1000) :=
  query_row_cap "SELECT 1" 5000 ["c"] (List.replicate 1500 0) (by decide) (by decide)

/-- C6: once validation passes, an exception raised while executing or
fetching is caught and returned as the error result carrying the
exception's message; the embedding is a total function, so nothing is
ever raised to the caller. -/
theorem query_exec_error_caught {ρ : Type} (sql : String) (L : Nat) (msg : String)
    (h1 : startsWithChars (pyNormalize sql) "SELECT".data = true)
    (h2 : DENYLIST.any (fun w => containsWholeWord (pyNormalize sql) w) = false) :
    query sql L (Except.error msg : Except String (List String × List ρ))
      = QueryOut.err msg := by
  simp [query, h1, h2]

/-- C6 witness: a failing execution of a validated statement comes back
as the error result with the exception's message. -/
theorem query_exec_error_caught_witness :
    query "SELECT * FROM missing_table" 100
        (Except.error "no such table: missing_table"
          : Except String (List String × List Unit))
      = QueryOut.err "no such table: missing_table" :=
  query_exec_error_caught _ _ _ (by decide) (by decide)

/-- C10: the stored pace is derived by dividing the distance unit
(1000 m) by the average speed exactly when the speed is present and
strictly positive; a zero, negative, or absent speed stores an absent
pace, and the division is never evaluated with a non-positive
divisor. -/
theorem split_pace_guard :
    (∀ s : ℚ, 0 < s → splitPace (some s) = some (fmtPace (1000 / s))) ∧
    (∀ s : ℚ, s ≤ 0 → splitPace (some s) = none) ∧
    splitPace none = none := by
  refine ⟨?_, ?_, rfl⟩
  · intro s hs
    have hne : s ≠ 0 := ne_of_gt hs
    simp [splitPace, hne, hs]
  · intro s hs
    have hcond : ¬(s ≠ 0 ∧ 0 < s) := by
      rintro ⟨h1, h2⟩
      exact absurd hs (not_le.mpr h2)
    simp [splitPace, hcond]

/-- C10 witness: 4 m/s becomes the 4:10 min/km pace; zero speed stores
no pace. -/
theorem split_pace_guard_witness :
    splitPace (some 4) = some "4:10" ∧ splitPace (some 0) = none := by
  constructor
  · rw [split_pace_guard.1 4 (by norm_num)]
    have h : (1000 / 4 : ℚ) = 250 := by norm_num
    rw [h]
    simp only [fmtPace, Rat.num_ofNat, Rat.den_ofNat]
    rfl
  · exact split_pace_guard.2.1 0 le_rfl

theorem nextMaxRaw_mk (b : Int) : nextMaxRaw (mkZoneIn b) = (if b = 0 then 0 else b) - 1 := by
  by_cases hb : b = 0 <;> simp [nextMaxRaw, mkZoneIn, pyOrOpt, truthyOptInt, hb]

/-- C8 counterexample: for start boundaries `[1, 1]` the claim predicts
the stored upper bound of zone 0 to be `1 - 1 = 0`, but the code stores
it as absent (the derived bound is clamped to `None` when it is not
strictly positive, sync.py line 538). -/
theorem hr_zone_upper_bounds_counterexample :
    ((zoneRows 0 [mkZoneIn 1, mkZoneIn 1]).map (fun p => p.2.max_hr))
      ≠ [some (1 - 1), none] := by
  decide

/-- C8 (amended): for zones arriving as a sequence of zone-start
boundary values, the stored upper bound of zone `i` equals the start
boundary of zone `i+1` minus one whenever that value is strictly
positive, and is stored absent otherwise; the final zone's upper bound
is always absent.  In particular starts `[100, 140, 160]` yield the
ranges `[100, 139]`, `[140, 159]`, `[160, absent]`. -/
theorem hr_zone_upper_bounds (starts : List Int) :
    ((zoneRows 0 (starts.map mkZoneIn)).map (fun p => p.2.max_hr)) = specUpper starts ∧
    ((zoneRows 0 ([100, 140, 160].map mkZoneIn)).map
        (fun p => (p.2.min_hr, p.2.max_hr)))
      = [(some 100, some 139), (some 140, some 159), (some 160, none)] := by
  have key : ∀ (l : List Int) (i : Nat),
      ((zoneRows i (l.map mkZoneIn)).map (fun p => p.2.max_hr)) = specUpper l := by
    intro l
    induction l with
    | nil => intro i; rfl
    | cons a t ih =>
      intro i
      cases t with
      | nil => simp [zoneRows, specUpper]
      | cons b r =>
        have ht := ih (i + 1)
        simp only [List.map_cons, zoneRows, specUpper, nextMaxRaw_mk] at ht ⊢
        rw [← ht]
        refine congrArg₂ List.cons ?_ rfl
        by_cases hb : b = 0
        · subst hb
          norm_num
        · rw [if_neg hb]
          by_cases h : 0 < b - 1
          · rw [if_pos ⟨by omega, h⟩, if_pos h]
          · rw [if_neg (fun hc => h hc.2), if_neg h]
  exact ⟨key starts 0, by decide⟩

theorem hrZonesLoop_store {K V : Type} [DecidableEq K]
    (outcome : String → DetailOutcome (K × Cols V)) (ids : List String)
    (store : List (K × Cols V)) (n : Nat) :
    (hrZonesLoop outcome ids store n).1 = cleanDetailStore outcome ids store := by
  induction ids generalizing store n with
  | nil => rfl
  | cons aid rest ih =>
    cases h : outcome aid with
    | ok rows => simp [hrZonesLoop, cleanDetailStore, h, ih]
    | fail w m => simp [hrZonesLoop, cleanDetailStore, h, ih]

theorem splitsLoop_store {K V : Type} [DecidableEq K]
    (outcome : String → DetailOutcome (K × Cols V)) (ids : List String)
    (store : List (K × Cols V)) (n : Nat) (errs : List String) :
    (splitsLoop outcome ids store n errs).1 = cleanDetailStore outcome ids store := by
  induction ids generalizing store n errs with
  | nil => rfl
  | cons aid rest ih =>
    cases h : outcome aid with
    | ok rows => simp [splitsLoop, cleanDetailStore, h, ih]
    | fail w m => simp [splitsLoop, cleanDetailStore, h, ih]

theorem splitsLoop_errs {K V : Type} [DecidableEq K]
    (outcome : String → DetailOutcome (K × Cols V)) (ids : List String)
    (store : List (K × Cols V)) (n : Nat) (errs : List String) :
    (splitsLoop outcome ids store n errs).2.2 = errs ++ splitFailures outcome ids := by
  induction ids generalizing store n errs with
  | nil => simp [splitsLoop, splitFailures]
  | cons aid rest ih =>
    cases h : outcome aid with
    | ok rows => simp [splitsLoop, splitFailures, h, ih]
    | fail w m => simp [splitsLoop, splitFailures, h, ih]

/-- C9 counterexample: a splits run in which the single activity's
fetch fails returns a non-null category error string (the failure is
recorded as `"splits(<id>): <msg>"`, sync.py line 591), contradicting
the claim that per-activity failures never appear in the returned error
string. -/
theorem detail_per_activity_isolation_counterexample :
    (_sync_activity_splits
        (fun _ => DetailOutcome.fail ([] : List (Unit × Cols Unit)) "403 Forbidden")
        ["12345"] []).2.2 ≠ none := by
  decide

/-- C9 (amended): for both per-activity detail syncs, a failure while
fetching or writing one activity's detail rolls back only that
activity's partial writes and the loop continues (the final store is
the clean fold over the successful activities only).  The HR-zone sync
never reports such failures in its returned error string; the splits
sync, however, records each per-activity failure as
`"splits(<id>): <msg>"` and returns them joined by `"; "` (so they do
reach the aggregate warnings). -/
theorem detail_per_activity_isolation {K V : Type} [DecidableEq K]
    (outcome : String → DetailOutcome (K × Cols V)) (ids : List String)
    (store : List (K × Cols V)) :
    (_sync_activity_hr_zones outcome ids store).1 = cleanDetailStore outcome ids store ∧
    (_sync_activity_hr_zones outcome ids store).2.2 = none ∧
    (_sync_activity_splits outcome ids store).1 = cleanDetailStore outcome ids store ∧
    (_sync_activity_splits outcome ids store).2.2
      = (if splitFailures outcome ids = [] then none
         else some (String.intercalate "; " (splitFailures outcome ids))) := by
  refine ⟨hrZonesLoop_store outcome ids store 0, rfl,
    splitsLoop_store outcome ids store 0 [], ?_⟩
  show (if ((splitsLoop outcome ids store 0 []).2.2).isEmpty then none
      else some (String.intercalate "; " (splitsLoop outcome ids store 0 []).2.2)) = _
  rw [splitsLoop_errs outcome ids store 0 [], List.nil_append]
  cases splitFailures outcome ids <;> simp

end GarminCoach
